import Mathlib

/-!
Shallow embedding of the HTML-mirror translation pipeline in `src/main.py`
(functions `find_corrupt_pages`, `remove_comment_lines`, `find_strings`,
`translate_strings`, `post_processing`, and the per-file loop of `main`),
together with theorems settling the frozen specification claims.

External collaborators (BeautifulSoup's parser and prettifier, langdetect,
googletrans, argostranslate) are modelled as explicit oracle parameters of
the pipeline; the Python code itself is translated definition by definition.
-/

/-! ## Character and substring utilities -/

/-- Whitespace test used to model Python's `str.strip` / `str.isspace`
on the ASCII range. -/
def isWS (c : Char) : Bool :=
  c = ' ' || c = '\t' || c = '\n' || c = '\r'

/-- Model of Python's `str.strip()`: drop leading and trailing whitespace. -/
def pyStrip (s : String) : String :=
  ⟨((s.data.dropWhile isWS).reverse.dropWhile isWS).reverse⟩

/-- Model of Python's `str.isspace()`: non-empty and all whitespace. -/
def pyIsSpace (s : String) : Bool :=
  !s.data.isEmpty && s.data.all isWS

/-- Boolean test that `pat` is a prefix of the second list. -/
def leadsWith : List Char → List Char → Bool
  | [], _ => true
  | _ :: _, [] => false
  | p :: ps, c :: cs => p == c && leadsWith ps cs

/-- Boolean substring-occurrence test (Python's `pat in s`): some suffix of
the second list starts with `pat`. -/
def hasSub (pat : List Char) : List Char → Bool
  | [] => leadsWith pat []
  | c :: cs => leadsWith pat (c :: cs) || hasSub pat cs

theorem leadsWith_iff (pat : List Char) :
    ∀ l, leadsWith pat l = true ↔ ∃ v, l = pat ++ v := by
  induction pat with
  | nil =>
    intro l
    simp [leadsWith]
  | cons p ps ih =>
    intro l
    cases l with
    | nil =>
      simp [leadsWith]
    | cons c cs =>
      simp only [leadsWith, Bool.and_eq_true, beq_iff_eq, ih cs, List.cons_append,
        List.cons.injEq]
      constructor
      · rintro ⟨hpc, v, hv⟩
        exact ⟨v, hpc.symm, hv⟩
      · rintro ⟨v, hcp, hv⟩
        exact ⟨hcp.symm, v, hv⟩

theorem leadsWith_self_append (pat v : List Char) : leadsWith pat (pat ++ v) = true :=
  (leadsWith_iff pat _).2 ⟨v, rfl⟩

theorem leadsWith_mono (pat x y : List Char) (h : leadsWith pat x = true) :
    leadsWith pat (x ++ y) = true := by
  obtain ⟨v, hv⟩ := (leadsWith_iff pat x).1 h
  subst hv
  rw [List.append_assoc]
  exact leadsWith_self_append pat _

theorem hasSub_of_leadsWith (pat l : List Char) (h : leadsWith pat l = true) :
    hasSub pat l = true := by
  cases l with
  | nil => simpa [hasSub] using h
  | cons c cs => simp [hasSub, h]

theorem hasSub_cons_of_hasSub (pat : List Char) (c : Char) (l : List Char)
    (h : hasSub pat l = true) : hasSub pat (c :: l) = true := by
  simp [hasSub, h]

theorem hasSub_append_right (pat u l : List Char) (h : hasSub pat l = true) :
    hasSub pat (u ++ l) = true := by
  induction u with
  | nil => simpa using h
  | cons c cs ih => exact hasSub_cons_of_hasSub pat c _ ih

/-- Splits off the first occurrence of a pattern: an occurrence exists iff
the list decomposes around the pattern. -/
theorem hasSub_iff (pat : List Char) :
    ∀ l, hasSub pat l = true ↔ ∃ u v, l = u ++ pat ++ v := by
  intro l
  induction l with
  | nil =>
    simp only [hasSub, leadsWith_iff]
    constructor
    · rintro ⟨v, hv⟩
      exact ⟨[], v, by simpa using hv⟩
    · rintro ⟨u, v, huv⟩
      have hu : u = [] := by
        cases u with
        | nil => rfl
        | cons a as => simp at huv
      subst hu
      exact ⟨v, by simpa using huv⟩
  | cons c cs ih =>
    simp only [hasSub, Bool.or_eq_true, leadsWith_iff, ih]
    constructor
    · rintro (⟨v, hv⟩ | ⟨u, v, huv⟩)
      · exact ⟨[], v, by simpa using hv⟩
      · exact ⟨c :: u, v, by simp [huv]⟩
    · rintro ⟨u, v, huv⟩
      cases u with
      | nil => exact Or.inl ⟨v, by simpa using huv⟩
      | cons a as =>
        simp only [List.cons_append, List.cons.injEq] at huv
        exact Or.inr ⟨as, v, huv.2⟩

/-! ## Markup Sanitizer: `remove_comment_lines` (src/main.py lines 60-69)

`re.sub(r"<!--.*?-->", "", text)` with `DOTALL` removes, in a single
left-to-right pass, every minimal range starting at `<!--` and ending at the
first following `-->`; an unterminated `<!--` matches nothing. -/

def cOpen : List Char := ['<', '!', '-', '-']

def cClose : List Char := ['-', '-', '>']

/-- Scan for the first `-->` and return the suffix after it (regex engine
searching for the non-greedy end of a comment). -/
def dropAfterClose : List Char → Option (List Char)
  | [] => none
  | c :: rest =>
    if leadsWith cClose (c :: rest) then some (rest.drop 2) else dropAfterClose rest

theorem dropAfterClose_lt : ∀ l l', dropAfterClose l = some l' → l'.length < l.length := by
  intro l
  induction l with
  | nil => intro l' h; simp [dropAfterClose] at h
  | cons c rest ih =>
    intro l' h
    simp only [dropAfterClose] at h
    by_cases hp : leadsWith cClose (c :: rest) = true
    · simp only [hp, if_true, Option.some.injEq] at h
      subst h
      have h2 := List.length_drop 2 rest
      simp only [h2, List.length_cons]
      omega
    · simp only [hp, if_false, Bool.false_eq_true] at h
      have := ih l' h
      simp only [List.length_cons]
      omega

/-- One pass of `re.sub(r"<!--.*?-->", "", ·)` over the character list. -/
def scanComments (l : List Char) : List Char :=
  match l with
  | [] => []
  | c :: rest =>
    if leadsWith cOpen (c :: rest) then
      match h : dropAfterClose (rest.drop 3) with
      | some l2 => scanComments l2
      | none => c :: rest
    else c :: scanComments rest
termination_by l.length
decreasing_by
  · have h2 := dropAfterClose_lt _ _ h
    simp only [List.length_drop] at h2
    simp only [List.length_cons]
    omega
  · simp only [List.length_cons]
    omega

/-- Embedding of `remove_comment_lines` (src/main.py lines 60-69): empty
input short-circuits to `""`, otherwise the comment regex is erased. -/
def remove_comment_lines (html_text : String) : String :=
  if html_text = "" then "" else ⟨scanComments html_text.data⟩

/-- Specification relation for comment stripping: the output arises from the
input by deleting each minimal comment-delimited range `<!--` … `-->` (the
closing delimiter is the first one after the opener, so ranges may span
newlines), keeping every character outside such ranges, and keeping an
unterminated opener together with the rest of the text. -/
inductive Strips : List Char → List Char → Prop where
  | done : Strips [] []
  | keep : ∀ c l out, leadsWith cOpen (c :: l) = false → Strips l out →
      Strips (c :: l) (c :: out)
  | comment : ∀ b rest out, hasSub cClose (b ++ cClose.take 2) = false →
      Strips rest out → Strips (cOpen ++ b ++ cClose ++ rest) out
  | unterminated : ∀ l, leadsWith cOpen l = true → hasSub cClose (l.drop 4) = false →
      Strips l l

theorem dropAfterClose_none (m : List Char) (h : dropAfterClose m = none) :
    hasSub cClose m = false := by
  induction m with
  | nil => simp [hasSub, leadsWith, cClose]
  | cons c rest ih =>
    simp only [dropAfterClose] at h
    by_cases hp : leadsWith cClose (c :: rest) = true
    · simp [hp] at h
    · simp only [hp, if_false, Bool.false_eq_true] at h
      simp only [hasSub, Bool.or_eq_false_iff]
      exact ⟨by simpa using hp, ih h⟩

/-- The regex scan for `-->` finds the first closing delimiter: the input
splits as `b ++ "-->" ++ rest` where no `-->` occurs earlier (also not
straddling into the delimiter). -/
theorem dropAfterClose_decomp (m m' : List Char) (h : dropAfterClose m = some m') :
    ∃ b, m = b ++ cClose ++ m' ∧ hasSub cClose (b ++ cClose.take 2) = false := by
  induction m with
  | nil => simp [dropAfterClose] at h
  | cons c rest ih =>
    simp only [dropAfterClose] at h
    by_cases hp : leadsWith cClose (c :: rest) = true
    · simp only [hp, if_true, Option.some.injEq] at h
      obtain ⟨v, hv⟩ := (leadsWith_iff cClose (c :: rest)).1 hp
      refine ⟨[], ?_, by decide⟩
      have hrest : rest = ['-', '>'] ++ v := by
        have := hv
        simp only [cClose] at this
        exact (List.cons.inj this).2
      have hm' : m' = v := by
        rw [← h, hrest]
        simp
      rw [hm', List.nil_append, hv]
    · simp only [hp, if_false, Bool.false_eq_true] at h
      obtain ⟨b, hb, hmin⟩ := ih h
      refine ⟨c :: b, by simp [hb], ?_⟩
      simp only [List.cons_append, hasSub, Bool.or_eq_false_iff]
      constructor
      · by_cases hl : leadsWith cClose (c :: (b ++ cClose.take 2)) = true
        · exfalso
          have hext : (c :: (b ++ cClose.take 2)) ++ (['>'] ++ m') = c :: rest := by
            simp only [hb, cClose]
            simp
          have h6 := leadsWith_mono cClose _ (['>'] ++ m') hl
          rw [hext] at h6
          exact hp h6
        · simpa using hl
      · exact hmin

/-- `scanComments` realizes the comment-stripping specification. -/
theorem scanComments_strips : ∀ l, Strips l (scanComments l) := by
  intro l
  induction l using scanComments.induct with
  | case1 =>
    simp only [scanComments]
    exact Strips.done
  | case2 c rest hop l2 h ih =>
    obtain ⟨v, hv⟩ := (leadsWith_iff cOpen (c :: rest)).1 hop
    have hrest : rest = ['!', '-', '-'] ++ v := by
      have h5 := hv
      simp only [cOpen] at h5
      exact (List.cons.inj h5).2
    have hdrop : rest.drop 3 = v := by rw [hrest]; simp
    have hD : dropAfterClose v = some l2 := by rw [← hdrop]; exact h
    obtain ⟨b, hb, hmin⟩ := dropAfterClose_decomp _ _ hD
    have hshape : c :: rest = cOpen ++ b ++ cClose ++ l2 := by
      rw [hv, hb]
      simp
    have hscan : scanComments (c :: rest) = scanComments l2 := by
      rw [scanComments]
      simp only [hop, if_true]
      split
      · rename_i x heq
        rw [h] at heq
        injection heq with h7
        rw [← h7]
      · rename_i heq
        rw [h] at heq
        cases heq
    rw [hscan, hshape]
    exact Strips.comment b l2 _ hmin ih
  | case3 c rest hop h =>
    have hscan : scanComments (c :: rest) = c :: rest := by
      rw [scanComments]
      simp only [hop, if_true]
      split
      · rename_i x heq
        rw [h] at heq
        cases heq
      · rfl
    rw [hscan]
    refine Strips.unterminated _ hop ?_
    have hdrop : (c :: rest).drop 4 = rest.drop 3 := by simp
    rw [hdrop]
    exact dropAfterClose_none _ h
  | case4 c rest hop ih =>
    have hscan : scanComments (c :: rest) = c :: scanComments rest := by
      rw [scanComments]
      rw [if_neg (by simp [hop])]
    rw [hscan]
    exact Strips.keep c rest _ (by simpa using hop) ih

/-! ## Doctype repair: the first block of `post_processing` (src/main.py
lines 120-130)

Python's `file_content.replace(source_text, target_text)` rewrites every
non-overlapping occurrence, scanning left to right; the block runs only when
`source_text in file_content`. -/

/-- Model of Python's `str.replace` on character lists: left-to-right,
non-overlapping, every occurrence. -/
def replaceAllL (pat repl : List Char) (l : List Char) : List Char :=
  match l with
  | [] => []
  | c :: rest =>
    if h : pat ≠ [] ∧ leadsWith pat (c :: rest) = true then
      repl ++ replaceAllL pat repl (rest.drop (pat.length - 1))
    else
      c :: replaceAllL pat repl rest
termination_by l.length
decreasing_by
  · simp only [List.length_drop, List.length_cons]
    omega
  · simp only [List.length_cons]
    omega

def pyReplace (s pat repl : String) : String :=
  ⟨replaceAllL pat.data repl.data s.data⟩

/-- The token some backends produce in place of the `DOCTYPE` keyword
(`source_text` in src/main.py line 121). -/
def mistranslatedToken : String := "एचटीएमएल"

/-- The replacement written by the repair (`target_text`, line 122). -/
def doctypeLiteral : String := "<!DOCTYPE html>"

/-- Embedding of the doctype-repair block of `post_processing` (src/main.py
lines 120-130): if the token occurs in the file content, every occurrence is
replaced and the file rewritten; otherwise the file is left alone. -/
def fixDoctype (content : String) : String :=
  if hasSub mistranslatedToken.data content.data then
    pyReplace content mistranslatedToken doctypeLiteral
  else content

/-- Specification relation for `str.replace(pat, repl)`: scanning left to
right, at every position either the pattern does not start there and the
character is kept, or the pattern starts there and is replaced by `repl`
with scanning resuming after it. -/
inductive PyReplAll (pat repl : List Char) : List Char → List Char → Prop where
  | done : PyReplAll pat repl [] []
  | keep : ∀ c l out, leadsWith pat (c :: l) = false → PyReplAll pat repl l out →
      PyReplAll pat repl (c :: l) (c :: out)
  | hit : ∀ rest out, PyReplAll pat repl rest out →
      PyReplAll pat repl (pat ++ rest) (repl ++ out)

/-- `replaceAllL` realizes the replace-all specification (for a non-empty
pattern, which is the only way Python's `str.replace` is used here). -/
theorem replaceAllL_spec (pat repl : List Char) (hne : pat ≠ []) :
    ∀ l, PyReplAll pat repl l (replaceAllL pat repl l) := by
  intro l
  induction l using replaceAllL.induct pat repl with
  | case1 =>
    rw [replaceAllL]
    exact PyReplAll.done
  | case2 c rest h ih =>
    obtain ⟨v, hv⟩ := (leadsWith_iff pat (c :: rest)).1 h.2
    have hdrop : rest.drop (pat.length - 1) = v := by
      cases pat with
      | nil => exact absurd rfl h.1
      | cons p ps =>
        have h5 : rest = ps ++ v := (List.cons.inj hv).2
        rw [h5]
        simp
    have hscan : replaceAllL pat repl (c :: rest) =
        repl ++ replaceAllL pat repl (rest.drop (pat.length - 1)) := by
      rw [replaceAllL]
      rw [dif_pos h]
    rw [hscan, hdrop, hv]
    exact PyReplAll.hit v _ (by rw [← hdrop]; exact ih)
  | case3 c rest h ih =>
    have hlw : leadsWith pat (c :: rest) = false := by
      by_cases hx : leadsWith pat (c :: rest) = true
      · exact absurd ⟨hne, hx⟩ h
      · simpa using hx
    have hscan : replaceAllL pat repl (c :: rest) = c :: replaceAllL pat repl rest := by
      rw [replaceAllL]
      rw [dif_neg h]
    rw [hscan]
    exact PyReplAll.keep c rest _ hlw ih

/-- A pattern-free input is left unchanged by the replace-all relation. -/
theorem pyReplAll_of_no_occurrence (pat repl l : List Char)
    (h : hasSub pat l = false) : PyReplAll pat repl l l := by
  induction l with
  | nil => exact PyReplAll.done
  | cons c rest ih =>
    simp only [hasSub, Bool.or_eq_false_iff] at h
    exact PyReplAll.keep c rest rest h.1 (ih h.2)

/-- When the pattern occurs in the input, the replacement string occurs in
the output of replace-all. -/
theorem pyReplAll_out_hasSub (pat repl : List Char) (hne : pat ≠ []) :
    ∀ l out, PyReplAll pat repl l out → hasSub pat l = true → hasSub repl out = true := by
  intro l out h
  induction h with
  | done =>
    intro hocc
    cases pat with
    | nil => exact absurd rfl hne
    | cons p ps => simp [hasSub, leadsWith] at hocc
  | keep c l2 out2 hlw h2 ih =>
    intro hocc
    simp only [hasSub, Bool.or_eq_true] at hocc
    rcases hocc with hocc | hocc
    · rw [hlw] at hocc
      cases hocc
    · exact hasSub_cons_of_hasSub repl c _ (ih hocc)
  | hit rest2 out2 h2 ih =>
    intro _
    exact hasSub_of_leadsWith repl (repl ++ out2) (leadsWith_self_append repl out2)

/-- A replace-all output with no occurrence of the pattern in the input is
the input itself (the guard branch of `fixDoctype` that skips the write). -/
theorem replaceAllL_no_occurrence (pat repl : List Char) :
    ∀ l, hasSub pat l = false → replaceAllL pat repl l = l := by
  intro l
  induction l using replaceAllL.induct pat repl with
  | case1 => intro _; rw [replaceAllL]
  | case2 c rest h ih =>
    intro hocc
    simp only [hasSub, Bool.or_eq_false_iff] at hocc
    rw [h.2] at hocc
    exact absurd hocc.1 (by simp)
  | case3 c rest h ih =>
    intro hocc
    simp only [hasSub, Bool.or_eq_false_iff] at hocc
    rw [replaceAllL]
    rw [dif_neg h]
    rw [ih hocc.2]

/-! ## Parsed markup trees

BeautifulSoup's parsed document is modelled as a forest of nodes; a node is
a text fragment (`NavigableString`) or an element with a tag name, an
attribute list and children. The lenient parser itself is external and is
passed into the pipeline as an oracle `String → NodeList`. -/

mutual
inductive Node where
  | text : String → Node
  | elem : String → List (String × String) → NodeList → Node
deriving DecidableEq
inductive NodeList where
  | nil : NodeList
  | cons : Node → NodeList → NodeList
deriving DecidableEq
end

/-- Singleton child list, for readable concrete documents. -/
def nl1 (a : Node) : NodeList := NodeList.cons a NodeList.nil

/-- Tag name of a node (`tag.name`; text nodes have no name). -/
def nodeName : Node → String
  | Node.text _ => ""
  | Node.elem n _ _ => n

/-- Attribute lookup on an attribute list (`tag.get(key)`). -/
def getAttrL : List (String × String) → String → Option String
  | [], _ => none
  | (k, v) :: rest, key => if k = key then some v else getAttrL rest key

/-- Attribute lookup on a node (`tag.get(key)`). -/
def getAttrN : Node → String → Option String
  | Node.text _, _ => none
  | Node.elem _ a _, key => getAttrL a key

/-- Attribute update (`tag[key] = value`). -/
def setAttrL : List (String × String) → String → String → List (String × String)
  | [], k, v => [(k, v)]
  | (k0, v0) :: rest, k, v =>
    if k0 = k then (k, v) :: rest else (k0, v0) :: setAttrL rest k v

/-- BeautifulSoup's `tag.string`: a text node is its own string; an element
with exactly one child has its child's string; anything else has none. -/
def nodeString : Node → Option String
  | Node.text s => some s
  | Node.elem _ _ (NodeList.cons c NodeList.nil) => nodeString c
  | Node.elem _ _ _ => none

mutual
/-- Node count of a tree, insensitive to the strings stored in it (used as
the termination measure of the mutator's walk). -/
def shapeSize : Node → Nat
  | Node.text _ => 1
  | Node.elem _ _ cs => 1 + shapeSizeL cs
def shapeSizeL : NodeList → Nat
  | NodeList.nil => 0
  | NodeList.cons c rest => 1 + shapeSize c + shapeSizeL rest
end

/-- BeautifulSoup's `tag.string.replace_with(new)`: replaces the string at
the end of the single-child chain that `nodeString` reads. -/
def replaceDeepString : Node → String → Node
  | Node.text _, s => Node.text s
  | Node.elem n a (NodeList.cons c NodeList.nil), s =>
    Node.elem n a (NodeList.cons (replaceDeepString c s) NodeList.nil)
  | t, _ => t

/-- The effect of `tag.string.replace_with(new)` on the children of the
mutated tag (`nodeString` only reads through a single-child chain, so only
that shape is affected). -/
def replaceDeepL : NodeList → String → NodeList
  | NodeList.cons c NodeList.nil, s => NodeList.cons (replaceDeepString c s) NodeList.nil
  | l, _ => l

/-- Mutual structural induction over nodes and node lists. -/
theorem node_mutual_ind (P : Node → Prop) (Q : NodeList → Prop)
    (ht : ∀ s, P (Node.text s))
    (he : ∀ n a cs, Q cs → P (Node.elem n a cs))
    (hn : Q NodeList.nil)
    (hc : ∀ c rest, P c → Q rest → Q (NodeList.cons c rest)) :
    (∀ t, P t) ∧ (∀ l, Q l) :=
  ⟨fun t => Node.rec ht he hn hc t, fun l => NodeList.rec ht he hn hc l⟩

theorem shapeSize_replaceDeepString : ∀ t s, shapeSize (replaceDeepString t s) = shapeSize t := by
  intro t s
  induction t, s using replaceDeepString.induct with
  | case1 s0 s => rfl
  | case2 n a c s ih =>
    simp only [replaceDeepString, shapeSize, shapeSizeL, ih]
  | case3 t s h1 h2 =>
    cases t with
    | text s2 => exact absurd rfl (h1 s2)
    | elem n a cs =>
      cases cs with
      | nil => rfl
      | cons c rest =>
        cases rest with
        | nil => exact absurd rfl (h2 n a c)
        | cons d rest2 => rfl

theorem shapeSize_pos : ∀ t, 0 < shapeSize t := by
  intro t
  cases t with
  | text s => simp [shapeSize]
  | elem n a cs => simp [shapeSize]

theorem shapeSizeL_replaceDeepL : ∀ l s, shapeSizeL (replaceDeepL l s) = shapeSizeL l := by
  intro l s
  cases l with
  | nil => rfl
  | cons c rest =>
    cases rest with
    | nil =>
      simp only [replaceDeepL, shapeSizeL, shapeSize_replaceDeepString]
    | cons d rest2 => rfl

mutual
/-- First element with a given tag name, in document order, descending into
subtrees (BeautifulSoup's `soup.find(name)`). -/
def findFirstN (nm : String) : Node → Option Node
  | Node.text _ => none
  | Node.elem n a cs =>
    if n = nm then some (Node.elem n a cs) else findFirstL nm cs
def findFirstL (nm : String) : NodeList → Option Node
  | NodeList.nil => none
  | NodeList.cons c rest =>
    match findFirstN nm c with
    | some x => some x
    | none => findFirstL nm rest
end

mutual
/-- Concatenated text of all descendant strings (`tag.get_text()`). -/
def getTextN : Node → String
  | Node.text s => s
  | Node.elem _ _ cs => getTextL cs
def getTextL : NodeList → String
  | NodeList.nil => ""
  | NodeList.cons c rest => getTextN c ++ getTextL rest
end

mutual
/-- All elements whose tag name satisfies a name test, in document order,
descending into every subtree (BeautifulSoup's `soup.find_all(names)`). -/
def findAllN (tags : List String) : Node → List Node
  | Node.text _ => []
  | Node.elem n a cs =>
    (if n ∈ tags then [Node.elem n a cs] else []) ++ findAllL tags cs
def findAllL (tags : List String) : NodeList → List Node
  | NodeList.nil => []
  | NodeList.cons c rest => findAllN tags c ++ findAllL tags rest
end

mutual
/-- Count of elements (at any depth) whose name satisfies a predicate;
a specification-side measure of "the tree contains such an element". -/
def countIfN (p : String → Bool) : Node → Nat
  | Node.text _ => 0
  | Node.elem n _ cs => (if p n then 1 else 0) + countIfL p cs
def countIfL (p : String → Bool) : NodeList → Nat
  | NodeList.nil => 0
  | NodeList.cons c rest => countIfN p c + countIfL p rest
end

/-- Names of the root-level nodes of a forest (text nodes contribute ""). -/
def rootNames : NodeList → List String
  | NodeList.nil => []
  | NodeList.cons c rest => nodeName c :: rootNames rest

/-! ## Document Validator: `find_corrupt_pages` (src/main.py lines 25-57) -/

inductive Verdict where
  | ok : Verdict
  | corrupt : String → Verdict
deriving DecidableEq

/-- The anti-bot phrase checked in the first `h2` heading (line 45). -/
def cfPhrase : String := "Checking if the site connection is secure"

/-- The checks of `find_corrupt_pages` that run on the parsed tree
(src/main.py lines 38-49): a feed marker element found anywhere by
`soup.find`, then the anti-bot phrase in the first `h2`. -/
def checkParsed (tree : NodeList) : Verdict :=
  if (findFirstL "rss" tree).isSome || (findFirstL "feed" tree).isSome then
    Verdict.corrupt "XML feed"
  else
    match findFirstL "h2" tree with
    | some h2 =>
      if hasSub cfPhrase.data (getTextN h2).data then
        Verdict.corrupt "Cloudflare"
      else Verdict.ok
    | none => Verdict.ok

/-- Embedding of `find_corrupt_pages` (src/main.py lines 25-57) on a file's
content (`none` models a missing file, reported corrupt via the
`FileNotFoundError` handler): empty content short-circuits before parsing,
otherwise the parsed tree is checked. -/
def find_corrupt_pages (content : Option String) (parse : String → NodeList) : Verdict :=
  match content with
  | none => Verdict.corrupt "File not found"
  | some s =>
    if s = "" then Verdict.corrupt "empty"
    else checkParsed (parse s)

/-! ## Translatable-Node Selector: `find_strings` (src/main.py lines 72-95) -/

/-- Embedding of `find_strings` (src/main.py lines 72-95). `detect` is the
external `langdetect.detect` oracle; `none` models the exception it raises
on featureless text (swallowed by the bare `except`). A returned node is an
eligible Translatable Node; `none` means not eligible. -/
def find_strings (detect : String → Option String) (tag : Node) : Option Node :=
  if nodeName tag = "img" ∧ (getAttrN tag "alt").isSome then some tag
  else if nodeName tag = "input" ∧ (getAttrN tag "placeholder").isSome then some tag
  else
    match nodeString tag with
    | none => none
    | some s =>
      if s = "" then none
      else if pyStrip s = "" then none
      else
        match detect s with
        | some lang => if lang = "en" then some tag else none
        | none => none

/-- The closed tag-name list the post-processor selects over
(src/main.py line 135). -/
def tags_to_check : List String :=
  ["h1", "h2", "h3", "h4", "h5", "h6", "p", "span", "a", "li", "td", "th",
   "title", "input", "img"]

/-- The numeric-badge pattern as the specification words it: one or more
digits, optionally a single comma or period group separator followed by
more digits, optionally a suffix of M, K, B, P or a literal plus sign
(examples: "50M", "4,180", "1.5K", "1200+"). -/
def badgeSuffix : List Char → Bool
  | [] => true
  | [c] => c = 'M' || c = 'K' || c = 'B' || c = 'P' || c = '+'
  | _ => false

def isDigitCh (c : Char) : Bool := '0' ≤ c && c ≤ '9'

def spec_numericBadge (s : String) : Bool :=
  if (s.data.takeWhile isDigitCh).isEmpty then false
  else
    match s.data.dropWhile isDigitCh with
    | [] => true
    | c :: rest2 =>
      if c = ',' || c = '.' then
        if (rest2.takeWhile isDigitCh).isEmpty then false
        else badgeSuffix (rest2.dropWhile isDigitCh)
      else badgeSuffix (c :: rest2)

/-! ## Translation Gateway: `translate_strings` (src/main.py lines 98-115)

The googletrans backend is an oracle indexed by the attempt number within
one call; `none` is a raised exception. The returned trace records the
number of backend attempts actually made and the list of `time.sleep`
durations performed, in order. `GatewayResult.fatal` is the
"Maximum number of retries reached." report followed by `exit()`. -/

inductive GatewayResult where
  | ok : String → GatewayResult
  | fatal : GatewayResult
deriving DecidableEq

/-- The retry loop of `translate_strings` (lines 104-115): `remaining` is
`max_retries - retries`; every failure sleeps for `timeout` seconds and
retries; running out of attempts reports and exits. -/
def translateLoop (backend : Nat → Option String) (timeout : Nat) :
    Nat → Nat → GatewayResult × Nat × List Nat
  | _, 0 => (GatewayResult.fatal, 0, [])
  | idx, remaining + 1 =>
    match backend idx with
    | some t => (GatewayResult.ok t, 1, [])
    | none =>
      let r := translateLoop backend timeout (idx + 1) remaining
      (r.1, r.2.1 + 1, timeout :: r.2.2)

/-- Embedding of `translate_strings` (src/main.py lines 98-115): empty or
whitespace-only text short-circuits to `""` with no backend call, otherwise
the bounded retry loop runs with the configured attempt limit and fixed
backoff. -/
def translate_strings (backend : Nat → Option String) (text : String)
    (max_retries : Nat := 5) (timeout : Nat := 3) : GatewayResult × Nat × List Nat :=
  if text = "" ∨ pyIsSpace text then (GatewayResult.ok "", 0, [])
  else translateLoop backend timeout 0 max_retries

/-- The call `translate_strings(tag.get(attr))` of the post-processor: a
missing attribute passes `None`, which the `if not text` guard turns into
`""` without invoking the backend. -/
def translateAttr (backend : Nat → Option String) : Option String → GatewayResult
  | none => GatewayResult.ok ""
  | some s => (translate_strings backend s).1

/-! ## Document Mutator: `post_processing` (src/main.py lines 117-161) -/

/-- External collaborators of the pipeline, passed in as oracles:
`parse` is BeautifulSoup's lenient parser, `detect` is langdetect,
`backend` is the googletrans call, `prettify` is `soup.prettify()`, and
`translateDoc` is `translatehtml.translate_html` on the cleaned markup of
one file (the argostranslate document-level mode used in `main`). -/
structure Env where
  parse : String → NodeList
  detect : String → Option String
  backend : Nat → Option String
  prettify : NodeList → String
  translateDoc : String → String

mutual
/-- The per-tag body of the `for tag in soup.find_all(tags_to_check)` loop
of `post_processing` (src/main.py lines 137-151), walking the tree in
document order over elements whose name is in `tags_to_check`; eligible
`input`/`img` tags get their attribute replaced, other eligible tags get
their `tag.string` replaced. The Bool is true when a `translate_strings`
call exhausted its retries, which exits the process at once. -/
def walkNode (env : Env) (t : Node) : Node × Bool :=
  match t with
  | Node.text s => (Node.text s, false)
  | Node.elem n a cs =>
    if n ∈ tags_to_check ∧ (find_strings env.detect (Node.elem n a cs)).isSome then
      if n = "input" then
        match translateAttr env.backend (getAttrL a "placeholder") with
        | GatewayResult.ok tr =>
          match walkNodes env cs with
          | (cs2, f) => (Node.elem n (setAttrL a "placeholder" tr) cs2, f)
        | GatewayResult.fatal => (Node.elem n a cs, true)
      else if n = "img" then
        match translateAttr env.backend (getAttrL a "alt") with
        | GatewayResult.ok tr =>
          match walkNodes env cs with
          | (cs2, f) => (Node.elem n (setAttrL a "alt" tr) cs2, f)
        | GatewayResult.fatal => (Node.elem n a cs, true)
      else
        match nodeString (Node.elem n a cs) with
        | some s =>
          match (translate_strings env.backend s).1 with
          | GatewayResult.ok tr =>
            match walkNodes env (replaceDeepL cs tr) with
            | (cs3, f) => (Node.elem n a cs3, f)
          | GatewayResult.fatal => (Node.elem n a cs, true)
        | none =>
          match walkNodes env cs with
          | (cs2, f) => (Node.elem n a cs2, f)
    else
      match walkNodes env cs with
      | (cs2, f) => (Node.elem n a cs2, f)
termination_by (shapeSize t, 1)
decreasing_by
  all_goals simp_wf
  all_goals simp only [shapeSize, shapeSizeL, shapeSizeL_replaceDeepL, Nat.add_comm 1]
  all_goals first
    | exact Prod.Lex.right _ (by omega)
    | exact Prod.Lex.left _ _ (by omega)
/-- Document-order continuation of the walk over a sibling list; a fatal
gateway exit stops everything at once. -/
def walkNodes (env : Env) (l : NodeList) : NodeList × Bool :=
  match l with
  | NodeList.nil => (NodeList.nil, false)
  | NodeList.cons c rest =>
    match walkNode env c with
    | (c2, true) => (NodeList.cons c2 rest, true)
    | (c2, false) =>
      match walkNodes env rest with
      | (rest2, f) => (NodeList.cons c2 rest2, f)
termination_by (shapeSizeL l + 1, 0)
decreasing_by
  all_goals simp_wf
  all_goals simp only [shapeSize, shapeSizeL, shapeSizeL_replaceDeepL, Nat.add_comm 1]
  all_goals first
    | exact Prod.Lex.right _ (by omega)
    | exact Prod.Lex.left _ _ (by omega)
end

/-- Embedding of `post_processing` (src/main.py lines 117-161) on the
content of the target file: first the doctype repair block rewrites the
token occurrences (lines 120-130), then the translation loop runs over the
re-parsed content and the prettified document is written back
(lines 132-159). A fatal gateway exit (inside `translate_strings`) leaves
the file with the doctype-repaired content, the prettify write never
happening. Returns the final file content and the fatal flag. -/
def post_processing (env : Env) (content : String) : String × Bool :=
  let c1 := fixDoctype content
  match walkNodes env (env.parse c1) with
  | (tree2, false) => (env.prettify tree2, false)
  | (_, true) => (c1, true)

/-! ## Batch Orchestrator: the per-file loop of `main`
(src/main.py lines 188-219) -/

/-- Observable pipeline actions per file, for stating which collaborators a
run invoked. -/
inductive Event where
  | validated : String → Event
  | translatedDoc : String → Event
  | wrote : String → Event
  | postProcessed : String → Event
deriving DecidableEq

/-- The mirror's file system: maps a path to the content of the file there,
if any. -/
def FS : Type := String → Option String

def updateFS (fs : FS) (p : String) (v : String) : FS :=
  fun q => if q = p then some v else fs q

/-- Embedding of one iteration of the `for html_file in html_files` loop of
`main` (src/main.py lines 188-219): skip when the target exists; validate
and skip when corrupt (a missing source is reported corrupt by
`find_corrupt_pages` via its `FileNotFoundError` handler); otherwise strip
comments, translate the document, write the target and post-process it.
Returns the updated file system, the events performed, and whether a fatal
gateway exit ended the process. -/
def processFile (env : Env) (fs : FS) (sp tp : String) : FS × List Event × Bool :=
  if (fs tp).isSome then (fs, [], false)
  else
    match fs sp with
    | none => (fs, [Event.validated sp], false)
    | some content =>
      match find_corrupt_pages (some content) env.parse with
      | Verdict.corrupt _ => (fs, [Event.validated sp], false)
      | Verdict.ok =>
        let translated := env.translateDoc (remove_comment_lines content)
        let fs1 := updateFS fs tp translated
        match post_processing env translated with
        | (post, fatal) =>
          (updateFS fs1 tp post,
           [Event.validated sp, Event.translatedDoc sp, Event.wrote tp,
            Event.postProcessed tp], fatal)

/-- The whole loop of `main` over the discovered (source, target) pairs: a
fatal gateway exit terminates the process, leaving later files unprocessed. -/
def runFiles (env : Env) (fs : FS) : List (String × String) → FS × Bool
  | [] => (fs, false)
  | (sp, tp) :: rest =>
    match processFile env fs sp tp with
    | (fs2, _, true) => (fs2, true)
    | (fs2, _, false) => runFiles env fs2 rest

/-! ## Helper lemmas for the claims -/

theorem spec_numericBadge_head (s : String) (h : spec_numericBadge s = true) :
    ∃ c cs, s.data = c :: cs ∧ isDigitCh c = true := by
  unfold spec_numericBadge at h
  cases hd : s.data with
  | nil =>
    rw [hd] at h
    simp [List.takeWhile] at h
  | cons c cs =>
    rw [hd] at h
    by_cases hdig : isDigitCh c = true
    · exact ⟨c, cs, rfl, hdig⟩
    · rw [if_pos (by simp [List.takeWhile, hdig])] at h
      cases h

theorem isDigitCh_not_isWS (c : Char) (h : isDigitCh c = true) : isWS c = false := by
  unfold isWS
  simp only [Bool.or_eq_false_iff, decide_eq_false_iff_not]
  refine ⟨⟨⟨?_, ?_⟩, ?_⟩, ?_⟩ <;> (rintro rfl; exact absurd h (by decide))

theorem pyStrip_ne_empty (s : String) (c : Char) (cs : List Char)
    (hd : s.data = c :: cs) (hw : isWS c = false) : pyStrip s ≠ "" := by
  intro hcontra
  have hdata : (pyStrip s).data = [] := by rw [hcontra]
  simp only [pyStrip] at hdata
  rw [hd] at hdata
  rw [List.dropWhile_cons] at hdata
  rw [if_neg (by simp [hw])] at hdata
  rw [List.reverse_eq_nil_iff] at hdata
  have hall := List.dropWhile_eq_nil_iff.mp hdata
  have hcmem : c ∈ (c :: cs).reverse := by simp
  have := hall c hcmem
  rw [hw] at this
  cases this

theorem string_ne_empty_of_data (s : String) (c : Char) (cs : List Char)
    (hd : s.data = c :: cs) : s ≠ "" := by
  intro h0
  rw [h0] at hd
  exact absurd hd (by simp)

theorem translateLoop_allfail (timeout : Nat) :
    ∀ (mr idx : Nat), translateLoop (fun _ => none) timeout idx mr =
      (GatewayResult.fatal, mr, List.replicate mr timeout) := by
  intro mr
  induction mr with
  | zero => intro idx; rfl
  | succ k ih =>
    intro idx
    simp only [translateLoop, ih (idx + 1), List.replicate]

theorem countIf_findFirst (nm : String) :
    (∀ t : Node, 0 < countIfN (fun n => n == nm) t → (findFirstN nm t).isSome = true) ∧
    (∀ l : NodeList, 0 < countIfL (fun n => n == nm) l → (findFirstL nm l).isSome = true) := by
  apply node_mutual_ind
  · intro s h
    simp [countIfN] at h
  · intro n a cs ih h
    simp only [countIfN] at h
    unfold findFirstN
    by_cases he : n = nm
    · simp [he]
    · rw [if_neg he]
      apply ih
      rw [if_neg (by simp [he])] at h
      omega
  · intro h
    simp [countIfL] at h
  · intro c rest ihc ihr h
    simp only [countIfL] at h
    unfold findFirstL
    cases hf : findFirstN nm c with
    | some x => simp
    | none =>
      simp only []
      apply ihr
      by_cases hc : 0 < countIfN (fun n => n == nm) c
      · have h8 := ihc hc
        rw [hf] at h8
        simp at h8
      · omega

theorem countIf_or_le (p q : String → Bool) :
    (∀ t : Node, countIfN (fun n => p n || q n) t ≤ countIfN p t + countIfN q t) ∧
    (∀ l : NodeList, countIfL (fun n => p n || q n) l ≤ countIfL p l + countIfL q l) := by
  apply node_mutual_ind
  · intro s
    simp [countIfN]
  · intro n a cs ih
    simp only [countIfN]
    by_cases hp : p n = true <;> by_cases hq : q n = true <;> simp [hp, hq] <;> omega
  · simp [countIfL]
  · intro c rest ihc ihr
    simp only [countIfL]
    omega

theorem findAll_length_countIf (tags : List String) :
    (∀ t : Node, (findAllN tags t).length = countIfN (fun n => decide (n ∈ tags)) t) ∧
    (∀ l : NodeList, (findAllL tags l).length = countIfL (fun n => decide (n ∈ tags)) l) := by
  apply node_mutual_ind
  · intro s
    simp [findAllN, countIfN]
  · intro n a cs ih
    simp only [findAllN, countIfN, List.length_append, ih]
    by_cases hn : n ∈ tags <;> simp [hn]
  · simp [findAllL, countIfL]
  · intro c rest ihc ihr
    simp only [findAllL, countIfL, List.length_append, ihc, ihr]

theorem findAll_names (tags : List String) :
    (∀ t : Node, ∀ x ∈ findAllN tags t, nodeName x ∈ tags) ∧
    (∀ l : NodeList, ∀ x ∈ findAllL tags l, nodeName x ∈ tags) := by
  apply node_mutual_ind
  · intro s x hx
    simp [findAllN] at hx
  · intro n a cs ih x hx
    simp only [findAllN] at hx
    rw [List.mem_append] at hx
    rcases hx with hx | hx
    · by_cases hn : n ∈ tags
      · simp only [if_pos hn, List.mem_singleton] at hx
        subst hx
        simpa [nodeName] using hn
      · simp [if_neg hn] at hx
    · exact ih x hx
  · intro x hx
    simp [findAllL] at hx
  · intro c rest ihc ihr x hx
    simp only [findAllL] at hx
    rw [List.mem_append] at hx
    rcases hx with hx | hx
    · exact ihc x hx
    · exact ihr x hx

/-! ## Concrete fixtures used by counterexamples and witnesses -/

def pad (n : Nat) : String := ⟨List.replicate n ' '⟩

mutual
/-- Modelled from the spec: the canonical reformatting step of `finalize`
(spec section 4.5, item 2) — `soup.prettify()` in src/main.py line 154 is a
BeautifulSoup facility whose code is not under src/, so it is modelled from
the spec's words as a canonical human-readable indentation form: every node
is serialized on its own line, children indented one space deeper.
Attributes play no role in any claim and are omitted. -/
def prettyNode (ind : Nat) : Node → String
  | Node.text s => pad ind ++ s ++ "\n"
  | Node.elem n _ cs =>
    pad ind ++ "<" ++ n ++ ">" ++ "\n" ++ prettyList (ind + 1) cs ++
      pad ind ++ "</" ++ n ++ ">" ++ "\n"
/-- List part of the modelled prettifier. -/
def prettyList (ind : Nat) : NodeList → String
  | NodeList.nil => ""
  | NodeList.cons c rest => prettyNode ind c ++ prettyList ind rest
end

def prettyPrint (l : NodeList) : String := prettyList 0 l

/-- Single-paragraph document tree: the parse of "<p>Hello</p>". -/
def pHelloTree : NodeList := nl1 (Node.elem "p" [] (nl1 (Node.text "Hello")))

/-- Oracle set with no language detected anywhere (langdetect failing on
every literal) and a prettifier; used where translation must not happen. -/
def envPlain : Env :=
  { parse := fun _ => pHelloTree
  , detect := fun _ => none
  , backend := fun _ => none
  , prettify := prettyPrint
  , translateDoc := fun s => s }

/-- Oracle set whose detector reports English for everything and whose
googletrans backend fails on every call. -/
def envFail : Env :=
  { parse := fun _ => pHelloTree
  , detect := fun _ => some "en"
  , backend := fun _ => none
  , prettify := prettyPrint
  , translateDoc := fun s => s }

/-- A mirror holding one source file "s" with a translatable paragraph. -/
def fsHello : FS := fun p => if p = "s" then some "<p>Hello</p>" else none

/-- A mirror whose target path "t" is already populated. -/
def fsDone : FS :=
  fun p => if p = "t" then some "out" else if p = "s" then some "<p>Hello</p>" else none

/-- A mirror holding one zero-byte source file "s". -/
def fsEmpty : FS := fun p => if p = "s" then some "" else none

/-- A feed marker element nested below the root (not root-level). -/
def nestedFeedTree : NodeList :=
  nl1 (Node.elem "div" [] (nl1 (Node.elem "rss" [] NodeList.nil)))

/-- A root-level div with text, outside any script or style subtree. -/
def divHelloTree : NodeList := nl1 (Node.elem "div" [] (nl1 (Node.text "Hello")))

/-- An img element whose alt text is a numeric badge. -/
def imgBadge : Node := Node.elem "img" [("alt", "50M")] NodeList.nil

/-- An img element with an empty alt attribute. -/
def imgEmptyAlt : Node := Node.elem "img" [("alt", "")] NodeList.nil

/-- A span with a translatable text child. -/
def spanHi : Node := Node.elem "span" [] (nl1 (Node.text "Hi"))

/-- Content with the mistranslated doctype token both in doctype position
and inside the body text. -/
def c10demoIn : String := "एचटीएमएल\n<p>पुराना एचटीएमएल</p>"

def c10demoOut : String := "<!DOCTYPE html>\n<p>पुराना <!DOCTYPE html></p>"

/-! ## Claim theorems -/

/-- C9: `remove_comment_lines` removes from its input every minimal
(non-greedy) comment-delimited range `<!--...-->`, including ranges
spanning multiple lines, and leaves all other text unchanged (captured by
the `Strips` relation); for empty input it returns the empty string. The
last conjunct exercises a range spanning two lines. -/
theorem c9_strip_comments :
    remove_comment_lines "" = "" ∧
    (∀ s : String, Strips s.data (remove_comment_lines s).data) ∧
    remove_comment_lines "a<!--x
y-->b" = "ab" := by
  refine ⟨rfl, ?_, ?_⟩
  · intro s
    by_cases h0 : s = ""
    · subst h0
      exact Strips.done
    · unfold remove_comment_lines
      rw [if_neg h0]
      exact scanComments_strips s.data
  · simp [remove_comment_lines, scanComments, dropAfterClose, leadsWith, cOpen, cClose]

/-- C10: the doctype-repair step of `post_processing` replaces every
occurrence of the mistranslated token with `<!DOCTYPE html>`, not only the
occurrence in doctype position: `fixDoctype` realizes the replace-all
specification on every content, and on a concrete file whose body also
contains the token, the body occurrence is rewritten as well. -/
theorem c10_replace_all_occurrences :
    (∀ content : String,
      PyReplAll mistranslatedToken.data doctypeLiteral.data
        content.data (fixDoctype content).data) ∧
    fixDoctype c10demoIn = c10demoOut := by
  constructor
  · intro content
    unfold fixDoctype
    by_cases h : hasSub mistranslatedToken.data content.data = true
    · rw [if_pos h]
      exact replaceAllL_spec mistranslatedToken.data doctypeLiteral.data
        (by decide) content.data
    · rw [if_neg h]
      exact pyReplAll_of_no_occurrence _ _ _ (by simpa using h)
  · simp [fixDoctype, pyReplace, replaceAllL, hasSub, leadsWith, mistranslatedToken,
      doctypeLiteral, c10demoIn, c10demoOut]

/-- C4 (counterexample): on a document that does not contain the
mistranslated token, `post_processing` is not a no-op: with oracles where
nothing is eligible for re-translation (langdetect fails everywhere), the
run completes without a fatal exit and still rewrites "<p>Hello</p>" into
its canonically reformatted form, which is not byte-identical. -/
theorem c4_doctype_counterexample :
    hasSub mistranslatedToken.data "<p>Hello</p>".data = false ∧
    post_processing envPlain "<p>Hello</p>" = ("<p>\n Hello\n</p>\n", false) ∧
    ("<p>\n Hello\n</p>\n" : String) ≠ "<p>Hello</p>" := by
  refine ⟨by decide, ?_, by decide⟩
  simp only [post_processing, envPlain]
  rw [show fixDoctype "<p>Hello</p>" = "<p>Hello</p>" from by
    unfold fixDoctype
    rw [if_neg (by decide)]]
  simp [walkNodes, walkNode, pHelloTree, nl1, find_strings, tags_to_check, nodeName,
    nodeString, getAttrN, getAttrL, pyStrip, isWS, prettyPrint, prettyList, prettyNode,
    pad]

/-- C4 (amended): if the serialized document contains the mistranslated
doctype token, the doctype-repair phase of `post_processing` yields content
containing the literal `<!DOCTYPE html>`; if the token is absent, that
phase leaves the content byte-identical (the subsequent reformatting stage
may still rewrite the document, as the counterexample shows). -/
theorem c4_doctype_amended :
    ∀ content : String,
      (hasSub mistranslatedToken.data content.data = true →
        hasSub doctypeLiteral.data (fixDoctype content).data = true) ∧
      (hasSub mistranslatedToken.data content.data = false →
        fixDoctype content = content) := by
  intro content
  constructor
  · intro h
    unfold fixDoctype
    rw [if_pos h]
    have hne : mistranslatedToken.data ≠ [] := by decide
    exact pyReplAll_out_hasSub _ _ hne _ _
      (replaceAllL_spec mistranslatedToken.data doctypeLiteral.data hne content.data) h
  · intro h
    unfold fixDoctype
    rw [if_neg (by simp [h])]

/-- C4 (witness): the amended theorem applied to a document holding the
token and to one free of it. -/
theorem c4_doctype_amended_witness :
    hasSub doctypeLiteral.data (fixDoctype "एचटीएमएल").data = true ∧
    fixDoctype "<p>x</p>" = "<p>x</p>" :=
  ⟨(c4_doctype_amended "एचटीएमएल").1 (by decide),
   (c4_doctype_amended "<p>x</p>").2 (by decide)⟩

/-- C2: against a backend that fails on every call, `translate_strings`
performs exactly `max_retries` backend attempts, sleeps the fixed `timeout`
backoff between attempts (the trace records one sleep after every failed
attempt), and ends in the fatal "maximum retries reached" exit; and a fatal
exit inside the processing of one file terminates the whole run at once,
processing no further file. -/
theorem c2_retry_exhaustion :
    (∀ (max_retries timeout : Nat) (text : String),
      text ≠ "" → pyIsSpace text = false →
      translate_strings (fun _ => none) text max_retries timeout =
        (GatewayResult.fatal, max_retries, List.replicate max_retries timeout)) ∧
    (∀ (env : Env) (fs : FS) (sp tp : String) (rest : List (String × String)),
      (processFile env fs sp tp).2.2 = true →
      runFiles env fs ((sp, tp) :: rest) = ((processFile env fs sp tp).1, true)) := by
  constructor
  · intro mr tmo text h0 h1
    unfold translate_strings
    rw [if_neg (by simp [h0, h1])]
    exact translateLoop_allfail tmo mr 0
  · intro env fs sp tp rest h
    unfold runFiles
    rcases hpf : processFile env fs sp tp with ⟨fs2, evs, flag⟩
    rw [hpf] at h
    simp only at h
    subst h
    simp

/-- C2 (witness): the retry bound at `max_retries = 5`, `timeout = 3` on the
text "Hello", and the run over two files stopping at the first, whose
processing is fatal under the always-failing backend. -/
theorem c2_retry_exhaustion_witness :
    translate_strings (fun _ => none) "Hello" 5 3 =
      (GatewayResult.fatal, 5, [3, 3, 3, 3, 3]) ∧
    runFiles envFail fsHello [("s", "t"), ("s2", "t2")] =
      ((processFile envFail fsHello "s" "t").1, true) := by
  constructor
  · have h := c2_retry_exhaustion.1 5 3 "Hello" (by decide) (by decide)
    simpa using h
  · refine c2_retry_exhaustion.2 envFail fsHello "s" "t" [("s2", "t2")] ?_
    simp [processFile, find_corrupt_pages, checkParsed, findFirstL, findFirstN,
      pHelloTree, nl1, envFail, fsHello, post_processing, fixDoctype,
      mistranslatedToken, hasSub, leadsWith, walkNodes, walkNode, find_strings,
      tags_to_check, nodeName, nodeString, getAttrN, getAttrL, pyStrip, isWS,
      translate_strings, pyIsSpace, translateLoop, remove_comment_lines,
      scanComments, getTextN, getTextL, cfPhrase, replaceDeepL, replaceDeepString,
      translateAttr, cOpen, cClose, dropAfterClose]

/-- C3: when a file's derived target path already exists, the Orchestrator
skips the file entirely: no validation, no translation and no write happen
(the event list is empty), and the file system — in particular the
previously produced output at the target path — is byte-for-byte unchanged,
which is what makes a second run over the same input leave the first run's
outputs intact. -/
theorem c3_skip_existing_target :
    ∀ (env : Env) (fs : FS) (sp tp c : String),
      fs tp = some c → processFile env fs sp tp = (fs, [], false) := by
  intro env fs sp tp c h
  unfold processFile
  rw [h]
  rfl

/-- C3 (witness): skipping the file whose target "t" was already produced. -/
theorem c3_skip_existing_target_witness :
    processFile envPlain fsDone "s" "t" = (fsDone, [], false) :=
  c3_skip_existing_target envPlain fsDone "s" "t" "out" (by decide)

/-- C5: a zero-byte input file is reported corrupt with reason "empty" by
the Validator under every parser oracle, and the Orchestrator then skips
it: the only event is the validation, no translation and no post-processing
happen, and the file system is unchanged, so no output file is written for
that path. -/
theorem c5_empty_file :
    ∀ (env : Env) (fs : FS) (sp tp : String),
      fs sp = some "" → fs tp = none →
      (∀ parse, find_corrupt_pages (some "") parse = Verdict.corrupt "empty") ∧
      processFile env fs sp tp = (fs, [Event.validated sp], false) := by
  intro env fs sp tp hsp htp
  constructor
  · intro parse
    rfl
  · unfold processFile
    rw [htp, hsp]
    rfl

/-- C5 (witness): the zero-byte file "s" with no pre-existing target. -/
theorem c5_empty_file_witness :
    find_corrupt_pages (some "") (fun _ => NodeList.nil) = Verdict.corrupt "empty" ∧
    processFile envPlain fsEmpty "s" "t" = (fsEmpty, [Event.validated "s"], false) := by
  have h := c5_empty_file envPlain fsEmpty "s" "t" (by decide) (by decide)
  exact ⟨h.1 (fun _ => NodeList.nil), h.2⟩

/-- C6 (counterexample): a tree whose only root-level element is a div, with
the rss marker strictly deeper, is still judged corrupt — `soup.find`
searches the whole tree, so the verdict is not restricted to root-level
markers as the claim states. -/
theorem c6_feed_counterexample :
    checkParsed nestedFeedTree = Verdict.corrupt "XML feed" ∧
    rootNames nestedFeedTree = ["div"] := by
  constructor
  · decide
  · decide

/-- C6 (amended): a parsed tree containing an rss or feed element at any
depth — counted by `countIfL`, regardless of all other content — is judged
corrupt by the Validator's feed check. -/
theorem c6_feed_amended :
    ∀ tree : NodeList,
      0 < countIfL (fun n => n == "rss" || n == "feed") tree →
      checkParsed tree = Verdict.corrupt "XML feed" := by
  intro tree h
  have hle := (countIf_or_le (fun n => n == "rss") (fun n => n == "feed")).2 tree
  have hor : 0 < countIfL (fun n => n == "rss") tree ∨
      0 < countIfL (fun n => n == "feed") tree := by omega
  unfold checkParsed
  rcases hor with h1 | h1
  · rw [(countIf_findFirst "rss").2 tree h1]
    simp
  · rw [(countIf_findFirst "feed").2 tree h1]
    simp

/-- C6 (witness): the amended theorem applied to the nested-feed tree. -/
theorem c6_feed_amended_witness :
    checkParsed nestedFeedTree = Verdict.corrupt "XML feed" :=
  c6_feed_amended nestedFeedTree (by decide)

/-- C7 (counterexample): selection is not applied to every element outside
script/style subtrees: a root-level div holding translatable text — with no
script or style element anywhere in the tree — is never passed to the
Selector (`find_all(tags_to_check)` returns nothing on this tree), and the
walk leaves it untouched even under oracles that would translate it. -/
theorem c7_selection_domain_counterexample :
    findAllL tags_to_check divHelloTree = [] ∧
    countIfL (fun n => n == "script" || n == "style") divHelloTree = 0 ∧
    0 < countIfL (fun _ => true) divHelloTree ∧
    walkNodes envFail divHelloTree = (divHelloTree, false) := by
  refine ⟨by decide, by decide, by decide, ?_⟩
  simp [walkNodes, walkNode, divHelloTree, nl1, tags_to_check]

/-- C7 (amended): the traversal of `post_processing` applies selection to
exactly the elements whose tag name is in the closed list `tags_to_check`,
wherever they occur in the tree — there is no script/style subtree
exclusion in the traversal; script and style content is protected only in
that those two names are not in the list. -/
theorem c7_selection_domain_amended :
    ("script" ∉ tags_to_check ∧ "style" ∉ tags_to_check) ∧
    (∀ l : NodeList, (findAllL tags_to_check l).length =
      countIfL (fun n => decide (n ∈ tags_to_check)) l) ∧
    (∀ l : NodeList, ∀ x ∈ findAllL tags_to_check l, nodeName x ∈ tags_to_check) := by
  refine ⟨by decide, ?_, ?_⟩
  · exact (findAll_length_countIf tags_to_check).2
  · exact (findAll_names tags_to_check).2

/-- C7 (witness): the amended characterization evaluated on a one-paragraph
tree: the paragraph is selected and its name is in the closed list. -/
theorem c7_selection_domain_amended_witness :
    (findAllL tags_to_check pHelloTree).length =
      countIfL (fun n => decide (n ∈ tags_to_check)) pHelloTree ∧
    nodeName (Node.elem "p" [] (nl1 (Node.text "Hello"))) ∈ tags_to_check :=
  ⟨c7_selection_domain_amended.2.1 pHelloTree,
   c7_selection_domain_amended.2.2 pHelloTree
     (Node.elem "p" [] (nl1 (Node.text "Hello"))) (by decide)⟩

/-- C1 (counterexample): `find_strings` performs no numeric-badge
filtering: an img element whose alt text is the numeric badge "50M" (which
matches the specification's badge pattern) is marked eligible, so its text
is passed on to the Gateway rather than left untouched. The detector plays
no role in the img branch. -/
theorem c1_selector_badge_counterexample :
    spec_numericBadge "50M" = true ∧
    find_strings (fun _ => none) imgBadge = some imgBadge := by
  constructor
  · decide
  · decide

/-- C1 (amended): the code contains no numeric-badge check. For img/input
elements eligibility ignores the text entirely (see the counterexample);
for the other, text-bearing tags, a node whose extracted text matches the
numeric-badge pattern is eligible exactly when the external language
detector reports "en" for it — the badge guard of the specification exists
only to the extent that the detector refuses such literals. -/
theorem c1_selector_badge_amended :
    ∀ (detect : String → Option String) (tag : Node) (s : String),
      nodeName tag ≠ "img" → nodeName tag ≠ "input" → nodeString tag = some s →
      spec_numericBadge s = true →
      (find_strings detect tag = some tag ↔ detect s = some "en") := by
  intro detect tag s himg hinput hstr hbadge
  obtain ⟨c, cs, hd, hdig⟩ := spec_numericBadge_head s hbadge
  have hne : s ≠ "" := string_ne_empty_of_data s c cs hd
  have hstrip : pyStrip s ≠ "" :=
    pyStrip_ne_empty s c cs hd (isDigitCh_not_isWS c hdig)
  unfold find_strings
  rw [if_neg (fun hand => himg hand.1)]
  rw [if_neg (fun hand => hinput hand.1)]
  rw [hstr]
  simp only []
  rw [if_neg hne, if_neg hstrip]
  cases hdet : detect s with
  | none => simp
  | some lang =>
    by_cases hl : lang = "en"
    · subst hl
      simp
    · simp [hl]

/-- C1 (witness): for the badge literal "4,180" carried by a span, the
amended equivalence instantiated with a detector that reports "en" (the
node is then eligible) — the badge pattern itself never blocks it. -/
theorem c1_selector_badge_amended_witness :
    find_strings (fun _ => some "en") (Node.elem "span" [] (nl1 (Node.text "4,180"))) =
      some (Node.elem "span" [] (nl1 (Node.text "4,180"))) := by
  have h := c1_selector_badge_amended (fun _ => some "en")
    (Node.elem "span" [] (nl1 (Node.text "4,180"))) "4,180"
    (by decide) (by decide) (by decide) (by decide)
  exact h.2 rfl

/-- C8 (counterexample): an img element with an empty alt attribute is
marked eligible by the Selector, and the text extracted for it — the alt
value handed to `translate_strings` — is the empty string, contradicting
the claim that every eligible node carries non-empty, non-whitespace text. -/
theorem c8_extracted_text_counterexample :
    find_strings (fun _ => none) imgEmptyAlt = some imgEmptyAlt ∧
    getAttrN imgEmptyAlt "alt" = some "" := by
  constructor
  · decide
  · decide

/-- C8 (amended): for eligible nodes of the text-node case (not the
img/input attribute cases) the extracted text is guaranteed non-empty and
not whitespace-only; the attribute cases can carry empty or
whitespace-only text, but `translate_strings` then short-circuits to ""
with zero backend attempts, never invoking the backend. -/
theorem c8_extracted_text_amended :
    (∀ (detect : String → Option String) (tag : Node),
      nodeName tag ≠ "img" → nodeName tag ≠ "input" →
      (find_strings detect tag).isSome = true →
      ∃ s, nodeString tag = some s ∧ s ≠ "" ∧ pyStrip s ≠ "") ∧
    (∀ (backend : Nat → Option String) (max_retries timeout : Nat) (text : String),
      text = "" ∨ pyIsSpace text = true →
      translate_strings backend text max_retries timeout =
        (GatewayResult.ok "", 0, [])) := by
  constructor
  · intro detect tag himg hinput h
    unfold find_strings at h
    rw [if_neg (fun hand => himg hand.1)] at h
    rw [if_neg (fun hand => hinput hand.1)] at h
    cases hs : nodeString tag with
    | none =>
      rw [hs] at h
      simp at h
    | some s =>
      rw [hs] at h
      simp only [] at h
      by_cases h0 : s = ""
      · rw [if_pos h0] at h
        simp at h
      · rw [if_neg h0] at h
        by_cases h1 : pyStrip s = ""
        · rw [if_pos h1] at h
          simp at h
        · exact ⟨s, rfl, h0, h1⟩
  · intro backend mr tmo text h
    unfold translate_strings
    rw [if_pos h]

/-- C8 (witness): the amended theorem at a span with text "Hi" (the
text-node guarantee) and at the empty string (the gateway short-circuit). -/
theorem c8_extracted_text_amended_witness :
    (∃ s, nodeString spanHi = some s ∧ s ≠ "" ∧ pyStrip s ≠ "") ∧
    translate_strings (fun _ => none) "" 5 3 = (GatewayResult.ok "", 0, []) :=
  ⟨c8_extracted_text_amended.1 (fun _ => some "en") spanHi
    (by decide) (by decide) (by decide),
   c8_extracted_text_amended.2 (fun _ => none) 5 3 "" (Or.inl rfl)⟩
